import Mathlib

/-!
Shallow embedding of the habit-tracker core (Rust sources under
src/habit and src/src): the Habit record (src/habit/src/models/habit.rs),
the JSON store with load/save/identifier resolution
(src/habit/src/storage/json_storage.rs), the error enum
(src/habit/src/error.rs) and the command layer (src/src/cli/commands.rs).

Machine integers are modelled as Nat with explicit bounds (Uuid as a
128-bit value, u32 frequencies below 2^32).  `chrono::DateTime<Utc>` is
modelled as a record of calendar/clock components with chronological
(lexicographic) order, its `date_naive` projection, and its RFC3339
serde string form; serde_json serialization is modelled at the JSON
value level (objects as ordered field lists), which is the level at
which every round-trip and schema question in the spec lives.
-/

namespace HabitTracker

/-! ### Small string utilities mirroring the Rust std functions used -/

/-- ASCII lowercasing of one character, as Rust `u8::to_ascii_lowercase`
(only A-Z are affected). -/
def asciiLower (c : Char) : Char :=
  if 'A' ≤ c ∧ c ≤ 'Z' then Char.ofNat (c.toNat + 32) else c

/-- Rust `str::eq_ignore_ascii_case`. -/
def eqIgnoreAsciiCase (s t : String) : Bool :=
  s.data.map asciiLower == t.data.map asciiLower

/-- Rust `name.trim().is_empty()`: every character is whitespace
(ASCII whitespace; Unicode white space beyond these is abstracted). -/
def isTrimEmpty (s : String) : Bool :=
  s.data.all fun c => c = ' ' ∨ c = '\t' ∨ c = '\n' ∨ c = '\r'

/-! ### Fixed-width digit strings (used by RFC3339 dates and uuid hex) -/

/-- Digit character for a value below 16 (lowercase hex convention). -/
def digitChar (n : Nat) : Char :=
  if n < 10 then Char.ofNat (48 + n) else Char.ofNat (87 + n)

/-- Numeric value of a digit character in base `b ≤ 16`; accepts both
letter cases (as the uuid parser does). -/
def digitVal (b : Nat) (c : Char) : Option Nat :=
  if 48 ≤ c.toNat ∧ c.toNat ≤ 57 ∧ c.toNat - 48 < b then some (c.toNat - 48)
  else if 97 ≤ c.toNat ∧ c.toNat ≤ 102 ∧ c.toNat - 87 < b then some (c.toNat - 87)
  else if 65 ≤ c.toNat ∧ c.toNat ≤ 70 ∧ c.toNat - 55 < b then some (c.toNat - 55)
  else none

/-- `n` written in base `b` with exactly `w` digits, most significant first. -/
def toFixed (b : Nat) : Nat → Nat → List Char
  | 0, _ => []
  | w + 1, n => digitChar (n / b ^ w) :: toFixed b w (n % b ^ w)

/-- Read exactly `w` base-`b` digits off the front of a character list,
returning the value and the rest. -/
def readFixed (b : Nat) : Nat → List Char → Option (Nat × List Char)
  | 0, cs => some (0, cs)
  | _ + 1, [] => none
  | w + 1, c :: cs => match digitVal b c with
    | none => none
    | some d => match readFixed b w cs with
      | none => none
      | some (r, rest) => some (d * b ^ w + r, rest)

theorem digitVal_digitChar : ∀ d : Nat, d < 16 → digitVal 16 (digitChar d) = some d := by
  decide

theorem digitVal_digitChar_ten : ∀ d : Nat, d < 10 → digitVal 10 (digitChar d) = some d := by
  decide

theorem readFixed_toFixed_16 (w : Nat) :
    ∀ n, n < 16 ^ w → ∀ rest, readFixed 16 w (toFixed 16 w n ++ rest) = some (n, rest) := by
  induction w with
  | zero => intro n hn rest; interval_cases n; simp [toFixed, readFixed]
  | succ w ih =>
    intro n hn rest
    have hdiv : n / 16 ^ w < 16 := by
      have : n < 16 ^ w * 16 := by
        have := pow_succ 16 w; omega
      exact Nat.div_lt_of_lt_mul (by omega)
    have hmod : n % 16 ^ w < 16 ^ w := Nat.mod_lt _ (Nat.pos_pow_of_pos w (by omega))
    simp only [toFixed, List.cons_append, readFixed, List.append_eq, digitVal_digitChar _ hdiv,
      ih (n % 16 ^ w) hmod rest, Option.some.injEq, Prod.mk.injEq, and_true]
    have := Nat.div_add_mod' n (16 ^ w)
    omega

theorem readFixed_toFixed_10 (w : Nat) :
    ∀ n, n < 10 ^ w → ∀ rest, readFixed 10 w (toFixed 10 w n ++ rest) = some (n, rest) := by
  induction w with
  | zero => intro n hn rest; interval_cases n; simp [toFixed, readFixed]
  | succ w ih =>
    intro n hn rest
    have hdiv : n / 10 ^ w < 10 := by
      have : n < 10 ^ w * 10 := by
        have := pow_succ 10 w; omega
      exact Nat.div_lt_of_lt_mul (by omega)
    have hmod : n % 10 ^ w < 10 ^ w := Nat.mod_lt _ (Nat.pos_pow_of_pos w (by omega))
    simp only [toFixed, List.cons_append, readFixed, List.append_eq, digitVal_digitChar_ten _ hdiv,
      ih (n % 10 ^ w) hmod rest, Option.some.injEq, Prod.mk.injEq, and_true]
    have := Nat.div_add_mod' n (10 ^ w)
    omega

theorem readFixed_toFixed_16_nil (w n : Nat) (h : n < 16 ^ w) :
    readFixed 16 w (toFixed 16 w n) = some (n, []) := by
  simpa using readFixed_toFixed_16 w n h []

/-! ### Timestamps: the model of `chrono::DateTime<Utc>` -/

/-- A UTC timestamp, by calendar and clock components.  `chrono`
compares timestamps chronologically, which on components is the
lexicographic order; `date_naive` is the (year, month, day) projection. -/
structure Ts where
  year : Nat
  month : Nat
  day : Nat
  hour : Nat
  minute : Nat
  second : Nat
deriving DecidableEq, Repr

/-- Days in a month, Gregorian rules (for RFC3339 validity). -/
def daysInMonth (y m : Nat) : Nat :=
  if m = 2 then
    if y % 4 = 0 ∧ (y % 100 ≠ 0 ∨ y % 400 = 0) then 29 else 28
  else if m = 4 ∨ m = 6 ∨ m = 9 ∨ m = 11 then 30
  else 31

/-- The timestamps representable by a `chrono::DateTime<Utc>` whose
RFC3339 form has a four-digit year and whole seconds. -/
def Ts.Valid (t : Ts) : Prop :=
  t.year ≤ 9999 ∧ 1 ≤ t.month ∧ t.month ≤ 12 ∧ 1 ≤ t.day ∧ t.day ≤ daysInMonth t.year t.month ∧
    t.hour ≤ 23 ∧ t.minute ≤ 59 ∧ t.second ≤ 59

instance (t : Ts) : Decidable t.Valid := by unfold Ts.Valid; infer_instance

/-- Chronological (lexicographic) order on timestamps, `chrono`'s `Ord`. -/
def tsLeP (a b : Ts) : Prop :=
  a.year < b.year ∨ (a.year = b.year ∧ (a.month < b.month ∨ (a.month = b.month ∧
    (a.day < b.day ∨ (a.day = b.day ∧ (a.hour < b.hour ∨ (a.hour = b.hour ∧
      (a.minute < b.minute ∨ (a.minute = b.minute ∧ a.second ≤ b.second)))))))))

instance (a b : Ts) : Decidable (tsLeP a b) := by unfold tsLeP; infer_instance

/-- Boolean form, the comparator handed to the sort. -/
def tsLe (a b : Ts) : Bool := decide (tsLeP a b)

theorem tsLe_trans (a b c : Ts) : tsLe a b = true → tsLe b c = true → tsLe a c = true := by
  simp only [tsLe, decide_eq_true_eq]; unfold tsLeP; omega

theorem tsLe_total (a b : Ts) : (tsLe a b || tsLe b a) = true := by
  simp only [tsLe, Bool.or_eq_true, decide_eq_true_eq]; unfold tsLeP; omega

/-- `date_naive()`: the calendar date of a timestamp. -/
def dateNaive (t : Ts) : Nat × Nat × Nat := (t.year, t.month, t.day)

/-- Expect one literal character at the head of the input. -/
def expectChar (c : Char) : List Char → Option (List Char)
  | [] => none
  | d :: cs => if d = c then some cs else none

/-- RFC3339 rendering of a timestamp, as `chrono` serializes a
`DateTime<Utc>` with whole seconds: `YYYY-MM-DDTHH:MM:SSZ`. -/
def tsEncodeChars (t : Ts) : List Char :=
  toFixed 10 4 t.year ++ ('-' :: (toFixed 10 2 t.month ++ ('-' :: (toFixed 10 2 t.day ++
    ('T' :: (toFixed 10 2 t.hour ++ (':' :: (toFixed 10 2 t.minute ++ (':' ::
    (toFixed 10 2 t.second ++ ['Z']))))))))))

def tsEncode (t : Ts) : String := ⟨tsEncodeChars t⟩

/-- RFC3339 parsing back into a timestamp (the fraction-free, Z-offset
form that the serializer emits), validating the calendar fields as
`chrono` does. -/
def tsDecodeChars (cs : List Char) : Option Ts := do
  let (y, cs) ← readFixed 10 4 cs
  let cs ← expectChar '-' cs
  let (mo, cs) ← readFixed 10 2 cs
  let cs ← expectChar '-' cs
  let (d, cs) ← readFixed 10 2 cs
  let cs ← expectChar 'T' cs
  let (h, cs) ← readFixed 10 2 cs
  let cs ← expectChar ':' cs
  let (mi, cs) ← readFixed 10 2 cs
  let cs ← expectChar ':' cs
  let (s, cs) ← readFixed 10 2 cs
  let cs ← expectChar 'Z' cs
  match cs with
  | [] =>
    let t : Ts := ⟨y, mo, d, h, mi, s⟩
    if t.Valid then some t else none
  | _ => none

def tsDecode (s : String) : Option Ts := tsDecodeChars s.data

theorem tsDecode_tsEncode (t : Ts) (h : t.Valid) : tsDecode (tsEncode t) = some t := by
  obtain ⟨h1, h2, h3, h4, h5, h6, h7, h8⟩ := h
  have hday : t.day ≤ 31 := by
    have : daysInMonth t.year t.month ≤ 31 := by unfold daysInMonth; split_ifs <;> omega
    omega
  have hv : Ts.Valid ⟨t.year, t.month, t.day, t.hour, t.minute, t.second⟩ :=
    ⟨h1, h2, h3, h4, h5, h6, h7, h8⟩
  simp only [-Nat.reducePow, tsDecode, tsEncode, tsEncodeChars, tsDecodeChars,
    Option.bind_eq_bind, expectChar,
    readFixed_toFixed_10 4 t.year (by omega),
    readFixed_toFixed_10 2 t.month (by omega),
    readFixed_toFixed_10 2 t.day (by omega),
    readFixed_toFixed_10 2 t.hour (by omega),
    readFixed_toFixed_10 2 t.minute (by omega),
    readFixed_toFixed_10 2 t.second (by omega),
    ite_true, Option.some_bind, if_pos hv]

/-! ### Uuid (the `uuid` crate as used by the store and the CLI) -/

/-- Hyphenated lowercase-hex rendering of a 128-bit uuid value, the
form `Uuid`'s `Display`/serde serialization emits: 8-4-4-4-12. -/
def uuidEncodeChars (n : Nat) : List Char :=
  toFixed 16 8 (n / 2 ^ 96) ++ ('-' :: (toFixed 16 4 (n / 2 ^ 80 % 2 ^ 16) ++ ('-' ::
    (toFixed 16 4 (n / 2 ^ 64 % 2 ^ 16) ++ ('-' :: (toFixed 16 4 (n / 2 ^ 48 % 2 ^ 16) ++ ('-' ::
    toFixed 16 12 (n % 2 ^ 48))))))))

def uuidEncode (n : Nat) : String := ⟨uuidEncodeChars n⟩

def parseUuidHyphenated (cs : List Char) : Option Nat := do
  let (g1, cs) ← readFixed 16 8 cs
  let cs ← expectChar '-' cs
  let (g2, cs) ← readFixed 16 4 cs
  let cs ← expectChar '-' cs
  let (g3, cs) ← readFixed 16 4 cs
  let cs ← expectChar '-' cs
  let (g4, cs) ← readFixed 16 4 cs
  let cs ← expectChar '-' cs
  let (g5, cs) ← readFixed 16 12 cs
  match cs with
  | [] => some (g1 * 2 ^ 96 + g2 * 2 ^ 80 + g3 * 2 ^ 64 + g4 * 2 ^ 48 + g5)
  | _ => none

def parseUuidSimple (cs : List Char) : Option Nat := do
  let (v, cs) ← readFixed 16 32 cs
  match cs with
  | [] => some v
  | _ => none

/-- `str::parse::<Uuid>()` / `Uuid::parse_str`: accepts the hyphenated
and the simple (no-hyphen) forms, hex digits in either case (the rarely
used urn/braced forms are abstracted away). -/
def parseUuid (s : String) : Option Nat :=
  match parseUuidHyphenated s.data with
  | some v => some v
  | none => parseUuidSimple s.data

theorem parseUuid_uuidEncode (n : Nat) (h : n < 2 ^ 128) : parseUuid (uuidEncode n) = some n := by
  simp only [-Nat.reducePow, parseUuid, uuidEncode, uuidEncodeChars, parseUuidHyphenated,
    Option.bind_eq_bind, expectChar]
  simp only [-Nat.reducePow,
    readFixed_toFixed_16 8 (n / 2 ^ 96) (by omega),
    readFixed_toFixed_16 4 (n / 2 ^ 80 % 2 ^ 16) (by omega),
    readFixed_toFixed_16 4 (n / 2 ^ 64 % 2 ^ 16) (by omega),
    readFixed_toFixed_16 4 (n / 2 ^ 48 % 2 ^ 16) (by omega),
    readFixed_toFixed_16_nil 12 (n % 2 ^ 48) (by omega),
    ite_true, Option.some_bind, Option.some.injEq]
  omega

/-! ### The Habit record (src/habit/src/models/habit.rs) -/

/-- `Habit`: `id: Uuid` (a 128-bit value), `name`, optional
`description`, `created_at`, `completions: Vec<DateTime<Utc>>`,
optional `target_frequency: u32`, `is_active: bool`. -/
structure Habit where
  id : Nat
  name : String
  description : Option String
  created_at : Ts
  completions : List Ts
  target_frequency : Option Nat
  is_active : Bool
deriving DecidableEq, Repr

namespace Habit

/-- `Habit::new`: fresh id and creation time come from the environment
(`Uuid::new_v4()`, `Utc::now()`), passed here as arguments. -/
def new (newId : Nat) (now : Ts) (name : String) (description : Option String)
    (target_frequency : Option Nat) : Habit :=
  { id := newId, name := name, description := description, created_at := now,
    completions := [], target_frequency := target_frequency, is_active := true }

/-- `Habit::mark_complete`: if some existing completion has the same
calendar date, return false without mutating; otherwise push the
timestamp, re-sort ascending (stable sort, as `Vec::sort`), return true. -/
def mark_complete (h : Habit) (date : Ts) : Bool × Habit :=
  if h.completions.any fun d => dateNaive d = dateNaive date then
    (false, h)
  else
    (true, { h with completions := (h.completions ++ [date]).mergeSort tsLe })

end Habit

/-- Default habit used only as the `getD` fallback when indexing with an
index that is proved in range. -/
def dHabit : Habit :=
  { id := 0, name := "", description := none, created_at := ⟨0, 0, 0, 0, 0, 0⟩,
    completions := [], target_frequency := none, is_active := true }

/-- `u32::from_str` as invoked by `freq_str.parse::<u32>()`: an optional
leading plus sign, then one or more ASCII digits, and the value must fit
in 32 bits. -/
def parseU32 (s : String) : Option Nat :=
  let cs := match s.data with
    | '+' :: rest => rest
    | cs => cs
  if cs.isEmpty then none
  else if cs.all Char.isDigit then
    let v := cs.foldl (fun a c => a * 10 + (c.toNat - 48)) 0
    if v < 2 ^ 32 then some v else none
  else none

/-! ### JSON values: serde_json modelled at the value level.
The byte-level pretty printer and parser of serde_json are a faithful
inverse pair on values; the store's schema, optional-field and
round-trip behaviour all live at the value level modelled here. -/

inductive Json where
  | null
  | bool (b : Bool)
  | num (n : Nat)
  | str (s : String)
  | arr (elems : List Json)
  | obj (fields : List (String × Json))

def optStrToJson : Option String → Json
  | none => .null
  | some s => .str s

def optNumToJson : Option Nat → Json
  | none => .null
  | some n => .num n

/-- Derived serde `Serialize` for `Habit`: one JSON object, fields in
declaration order, `None` serialized as `null`, timestamps as RFC3339
strings, the id as the hyphenated uuid string. -/
def habitToJson (h : Habit) : Json :=
  .obj [("id", .str (uuidEncode h.id)),
        ("name", .str h.name),
        ("description", optStrToJson h.description),
        ("created_at", .str (tsEncode h.created_at)),
        ("completions", .arr (h.completions.map fun t => .str (tsEncode t))),
        ("target_frequency", optNumToJson h.target_frequency),
        ("is_active", .bool h.is_active)]

/-- serde's per-field lookup in an object: a known field may occur at
most once (a duplicate is an error); zero occurrences yield `none`
(an error for mandatory fields, `None` for `Option` fields). -/
def fieldOnce (fields : List (String × Json)) (k : String) : Option (Option Json) :=
  match fields.filter fun f => f.1 == k with
  | [] => some none
  | [f] => some (some f.2)
  | _ => none

def decodeStr : Option Json → Option String
  | some (.str s) => some s
  | _ => none

def decodeBool : Option Json → Option Bool
  | some (.bool b) => some b
  | _ => none

/-- An `Option<String>` field: missing or `null` is `None`. -/
def decodeOptStr : Option Json → Option (Option String)
  | none => some none
  | some .null => some none
  | some (.str s) => some (some s)
  | some _ => none

/-- An `Option<u32>` field: missing or `null` is `None`; a number must
fit in 32 bits. -/
def decodeOptU32 : Option Json → Option (Option Nat)
  | none => some none
  | some .null => some none
  | some (.num n) => if n < 2 ^ 32 then some (some n) else none
  | some _ => none

def decodeUuid : Option Json → Option Nat
  | some (.str s) => parseUuid s
  | _ => none

def decodeTs : Option Json → Option Ts
  | some (.str s) => tsDecode s
  | _ => none

def decodeTsElem : Json → Option Ts
  | .str s => tsDecode s
  | _ => none

def decodeTsList : Option Json → Option (List Ts)
  | some (.arr es) => es.mapM decodeTsElem
  | _ => none

/-- Derived serde `Deserialize` for `Habit`.  Every non-`Option` field
is mandatory — in particular `is_active: bool` has no `#[serde(default)]`
in the source, so a record without it does not parse. -/
def habitFromJson : Json → Option Habit
  | .obj fields => do
    let fid ← fieldOnce fields "id"
    let id ← decodeUuid fid
    let fname ← fieldOnce fields "name"
    let name ← decodeStr fname
    let fdesc ← fieldOnce fields "description"
    let description ← decodeOptStr fdesc
    let fcreated ← fieldOnce fields "created_at"
    let created_at ← decodeTs fcreated
    let fcomp ← fieldOnce fields "completions"
    let completions ← decodeTsList fcomp
    let ffreq ← fieldOnce fields "target_frequency"
    let target_frequency ← decodeOptU32 ffreq
    let factive ← fieldOnce fields "is_active"
    let act ← decodeBool factive
    some ⟨id, name, description, created_at, completions, target_frequency, act⟩
  | _ => none

/-! ### The store (src/habit/src/storage/json_storage.rs) -/

/-- `HabitStore { habits: Vec<Habit> }`. -/
structure HabitStore where
  habits : List Habit
deriving DecidableEq, Repr

def storeToJson (s : HabitStore) : Json :=
  .obj [("habits", .arr (s.habits.map habitToJson))]

def storeFromJson : Json → Option HabitStore
  | .obj fields => do
    let fh ← fieldOnce fields "habits"
    match fh with
    | some (.arr es) => do
      let hs ← es.mapM habitFromJson
      some ⟨hs⟩
    | _ => none
  | _ => none

/-- `HabitError` (src/habit/src/error.rs); the wrapped io / serde_json
payloads carry no data the core inspects. -/
inductive HabitError where
  | NotFound (ident : String)
  | InvalidName (value : String)
  | AlreadyCompleted (name : String)
  | Io
  | Serde
deriving DecidableEq, Repr

/-- What `load` can observe of the backing file, keeping the code's
distinct failure points separate: `path.exists()` — which reports false,
hence an empty store, also when the stat itself fails — then
`File::open`, whose failure is the only source of `Io`, then the reader
handed to `serde_json::from_reader`, whose io failures serde wraps in
its own error type so they surface as `Serde`, never `Io`. -/
inductive FileRead where
  | absent
  | openError
  | readError
  | found (content : Json)

/-- `HabitStore::load`: `!path.exists()` gives an empty store with no
error; `File::open(path)?` converts an open failure to `Io`;
`serde_json::from_reader(reader)?` converts both a read failure after a
successful open and non-parsing content to the serde (corrupt) error. -/
def HabitStore.load : FileRead → Except HabitError HabitStore
  | .absent => .ok ⟨[]⟩
  | .openError => .error .Io
  | .readError => .error .Serde
  | .found j =>
    match storeFromJson j with
    | some s => .ok s
    | none => .error .Serde

/-- `HabitStore::save` at the whole-file level: the backing file ends up
holding exactly the serialized store (the step-level temp-file/rename
sequence is modelled separately below). -/
def HabitStore.save (s : HabitStore) : FileRead := .found (storeToJson s)

/-- First index accepted by a predicate, `iter_mut().find(..)` with the
position kept so the in-place mutation can be expressed as `List.set`. -/
def findFirstIdx (p : Habit → Bool) : List Habit → Option Nat
  | [] => none
  | h :: t => if p h then some 0 else (findFirstIdx p t).map (· + 1)

/-- `HabitStore::find_by_ident_mut`: if the identifier parses as a
uuid, find by exact id; otherwise find by case-insensitive name. -/
def findByIdentIdx (s : HabitStore) (ident : String) : Option Nat :=
  match parseUuid ident with
  | some u => findFirstIdx (fun h => h.id == u) s.habits
  | none => findFirstIdx (fun h => eqIgnoreAsciiCase h.name ident) s.habits

/-! ### The command layer (src/src/cli/commands.rs) -/

/-- The parsed CLI commands (clap glue abstracted away). -/
inductive Cmd where
  | add (name : String) (description : Option String) (frequency : Option Nat)
  | list (active : Bool)
  | complete (identifier : String)
  | remove (identifier : String)
  | edit (identifier : String) (name : Option String) (description : Option String)
      (frequency : Option String) (active : Option Bool)

/-- The in-memory field updates of the Edit branch, in source order:
name (validated), description (with the `"null"` sentinel), frequency
(`"null"` sentinel or `u32` parse, else `InvalidName("frequency")`),
active flag. -/
def editFields (h : Habit) (name description frequency : Option String)
    (active : Option Bool) : Except HabitError Habit := do
  let h ← match name with
    | some n =>
      if isTrimEmpty n then Except.error (HabitError.InvalidName n)
      else pure { h with name := n }
    | none => pure h
  let h := match description with
    | some d =>
      if eqIgnoreAsciiCase d "null" then { h with description := none }
      else { h with description := some d }
    | none => h
  let h ← match frequency with
    | some fs =>
      if eqIgnoreAsciiCase fs "null" then pure { h with target_frequency := none }
      else match parseU32 fs with
        | some v => pure { h with target_frequency := some v }
        | none => Except.error (HabitError.InvalidName "frequency")
    | none => pure h
  let h := match active with
    | some b => { h with is_active := b }
    | none => h
  pure h

/-- `run(cli)`: one command against the backing file.  `Utc::now()` and
`Uuid::new_v4()` are environment inputs, passed as arguments.  Returns
the command's result together with the backing file afterwards. -/
def runCmd (now : Ts) (newId : Nat) (cmd : Cmd) (file : FileRead) :
    Except HabitError Unit × FileRead :=
  match cmd with
  | .add name description frequency =>
    if isTrimEmpty name then (.error (.InvalidName name), file)
    else match HabitStore.load file with
      | .error e => (.error e, file)
      | .ok store =>
        let habit := Habit.new newId now name description frequency
        let store2 : HabitStore := ⟨store.habits ++ [habit]⟩
        (.ok (), store2.save)
  | .list _ =>
    match HabitStore.load file with
    | .error e => (.error e, file)
    | .ok _ => (.ok (), file)
  | .complete ident =>
    match HabitStore.load file with
    | .error e => (.error e, file)
    | .ok store =>
      match findByIdentIdx store ident with
      | none => (.error (.NotFound ident), file)
      | some i =>
        let h := store.habits.getD i dHabit
        match h.mark_complete now with
        | (false, _) => (.error (.AlreadyCompleted h.name), file)
        | (true, h2) =>
          let store2 : HabitStore := ⟨store.habits.set i h2⟩
          (.ok (), store2.save)
  | .remove ident =>
    match HabitStore.load file with
    | .error e => (.error e, file)
    | .ok store =>
      let kept := store.habits.filter fun h =>
        match parseUuid ident with
        | some u => !(h.id == u)
        | none => !(eqIgnoreAsciiCase h.name ident)
      if kept.length == store.habits.length then (.error (.NotFound ident), file)
      else (.ok (), (HabitStore.mk kept).save)
  | .edit ident name description frequency active =>
    match HabitStore.load file with
    | .error e => (.error e, file)
    | .ok store =>
      match findByIdentIdx store ident with
      | none => (.error (.NotFound ident), file)
      | some i =>
        match editFields (store.habits.getD i dHabit) name description frequency active with
        | .error e => (.error e, file)
        | .ok h2 =>
          let store2 : HabitStore := ⟨store.habits.set i h2⟩
          (.ok (), store2.save)

/-! ### The step-level save sequence (atomic write via temp file) -/

/-- `storage_path()`: the `HABIT_STORAGE` environment variable when
set, else the relative default `habits.json`. -/
def storagePath (env : Option String) : String := env.getD "habits.json"

/-- `Path::with_extension` for a single-component path: replace
everything after the last dot (a dot at position 0 marks a hidden file,
not an extension) with the new extension. -/
def withExtension (s ext : String) : String :=
  let cs := s.data
  let dots := (List.range cs.length).filter fun i => decide (1 ≤ i) && (cs.getD i ' ' == '.')
  match dots.getLast? with
  | some i => ⟨cs.take i ++ '.' :: ext.data⟩
  | none => ⟨cs ++ '.' :: ext.data⟩

/-- File contents by path; directories are not modelled (the save
sequence never changes any file other than the two paths involved). -/
def FileSys := String → Option String

/-- The observable steps of `HabitStore::save`, in source order:
`create_dir_all` (directories only — identity on file contents),
`File::create(&tmp)` (creates/truncates the temp file), `write_all`
(the serialized bytes), `flush` (no visible change to contents), and
`fs::rename(tmp, path)` — the single step that changes what a reader
of the final path sees. -/
inductive SaveStep where
  | createDirAll
  | createTmp
  | writeAll
  | flush
  | rename

def applySaveStep (tmpP finalP data : String) (fs : FileSys) : SaveStep → FileSys
  | .createDirAll => fs
  | .createTmp => fun p => if p = tmpP then some "" else fs p
  | .writeAll => fun p => if p = tmpP then some data else fs p
  | .flush => fs
  | .rename => fun p =>
      if p = finalP then fs tmpP else if p = tmpP then none else fs p

def saveSteps : List SaveStep :=
  [.createDirAll, .createTmp, .writeAll, .flush, .rename]

def runSaveSteps (tmpP finalP data : String) (fs : FileSys) (steps : List SaveStep) : FileSys :=
  steps.foldl (applySaveStep tmpP finalP data) fs

/-! ### Validity: the states a running program can actually hold.
A `chrono::DateTime<Utc>` is always a real calendar date, a `Uuid` is
128 bits, a `u32` is below `2^32`; the Lean model makes those bounds an
explicit predicate. -/

def Habit.ValidData (h : Habit) : Prop :=
  h.id < 2 ^ 128 ∧ h.created_at.Valid ∧ (∀ t ∈ h.completions, t.Valid) ∧
    ∀ f, h.target_frequency = some f → f < 2 ^ 32

def HabitStore.ValidData (s : HabitStore) : Prop := ∀ h ∈ s.habits, h.ValidData

instance (h : Habit) : Decidable h.ValidData := by unfold Habit.ValidData; infer_instance

instance (s : HabitStore) : Decidable s.ValidData := by
  unfold HabitStore.ValidData; infer_instance

/-! ### Round-trip lemmas for the serde embedding -/

theorem mapM_decodeTsElem (l : List Ts) (hl : ∀ t ∈ l, t.Valid) :
    ((l.map fun t => Json.str (tsEncode t)).mapM decodeTsElem) = some l := by
  induction l with
  | nil => rfl
  | cons t ts ih =>
    rw [List.map_cons, List.mapM_cons]
    have ht : decodeTsElem (Json.str (tsEncode t)) = some t :=
      tsDecode_tsEncode t (hl t (by simp))
    rw [ht, ih fun x hx => hl x (by simp [hx])]
    rfl

theorem habitFromJson_habitToJson (h : Habit) (hv : h.ValidData) :
    habitFromJson (habitToJson h) = some h := by
  obtain ⟨hid, hts, hcomp, hfreq⟩ := hv
  obtain ⟨id, name, desc, created, comps, freq, act⟩ := h
  simp only [Habit.ValidData] at hid hts hcomp hfreq
  have hfields : habitToJson ⟨id, name, desc, created, comps, freq, act⟩ =
      Json.obj [("id", .str (uuidEncode id)), ("name", .str name),
        ("description", optStrToJson desc), ("created_at", .str (tsEncode created)),
        ("completions", .arr (comps.map fun t => .str (tsEncode t))),
        ("target_frequency", optNumToJson freq), ("is_active", .bool act)] := rfl
  rw [hfields]
  show (do
    let fid ← fieldOnce _ "id"
    let idv ← decodeUuid fid
    let fname ← fieldOnce _ "name"
    let namev ← decodeStr fname
    let fdesc ← fieldOnce _ "description"
    let descv ← decodeOptStr fdesc
    let fcreated ← fieldOnce _ "created_at"
    let createdv ← decodeTs fcreated
    let fcomp ← fieldOnce _ "completions"
    let compsv ← decodeTsList fcomp
    let ffreq ← fieldOnce _ "target_frequency"
    let freqv ← decodeOptU32 ffreq
    let factive ← fieldOnce _ "is_active"
    let actv ← decodeBool factive
    some (⟨idv, namev, descv, createdv, compsv, freqv, actv⟩ : Habit)) = _
  simp only [show ∀ j1 j2 j3 j4 j5 j6 j7,
      fieldOnce [("id", j1), ("name", j2), ("description", j3), ("created_at", j4),
        ("completions", j5), ("target_frequency", j6), ("is_active", j7)] "id" =
        some (some j1) from fun _ _ _ _ _ _ _ => rfl,
    show ∀ j1 j2 j3 j4 j5 j6 j7,
      fieldOnce [("id", j1), ("name", j2), ("description", j3), ("created_at", j4),
        ("completions", j5), ("target_frequency", j6), ("is_active", j7)] "name" =
        some (some j2) from fun _ _ _ _ _ _ _ => rfl,
    show ∀ j1 j2 j3 j4 j5 j6 j7,
      fieldOnce [("id", j1), ("name", j2), ("description", j3), ("created_at", j4),
        ("completions", j5), ("target_frequency", j6), ("is_active", j7)] "description" =
        some (some j3) from fun _ _ _ _ _ _ _ => rfl,
    show ∀ j1 j2 j3 j4 j5 j6 j7,
      fieldOnce [("id", j1), ("name", j2), ("description", j3), ("created_at", j4),
        ("completions", j5), ("target_frequency", j6), ("is_active", j7)] "created_at" =
        some (some j4) from fun _ _ _ _ _ _ _ => rfl,
    show ∀ j1 j2 j3 j4 j5 j6 j7,
      fieldOnce [("id", j1), ("name", j2), ("description", j3), ("created_at", j4),
        ("completions", j5), ("target_frequency", j6), ("is_active", j7)] "completions" =
        some (some j5) from fun _ _ _ _ _ _ _ => rfl,
    show ∀ j1 j2 j3 j4 j5 j6 j7,
      fieldOnce [("id", j1), ("name", j2), ("description", j3), ("created_at", j4),
        ("completions", j5), ("target_frequency", j6), ("is_active", j7)] "target_frequency" =
        some (some j6) from fun _ _ _ _ _ _ _ => rfl,
    show ∀ j1 j2 j3 j4 j5 j6 j7,
      fieldOnce [("id", j1), ("name", j2), ("description", j3), ("created_at", j4),
        ("completions", j5), ("target_frequency", j6), ("is_active", j7)] "is_active" =
        some (some j7) from fun _ _ _ _ _ _ _ => rfl,
    Option.bind_eq_bind, Option.some_bind, decodeUuid, decodeStr, decodeTs, decodeTsList,
    decodeBool, parseUuid_uuidEncode id hid, tsDecode_tsEncode created hts,
    mapM_decodeTsElem comps hcomp]
  cases desc with
  | none => cases freq with
    | none => rfl
    | some f =>
      have hf : f < 2 ^ 32 := hfreq f rfl
      simp only [optNumToJson, optStrToJson, decodeOptStr, decodeOptU32, if_pos hf,
        Option.some_bind]
  | some d => cases freq with
    | none => rfl
    | some f =>
      have hf : f < 2 ^ 32 := hfreq f rfl
      simp only [optNumToJson, optStrToJson, decodeOptStr, decodeOptU32, if_pos hf,
        Option.some_bind]

theorem mapM_habitFromJson (l : List Habit) (hl : ∀ h ∈ l, h.ValidData) :
    ((l.map habitToJson).mapM habitFromJson) = some l := by
  induction l with
  | nil => rfl
  | cons h hs ih =>
    rw [List.map_cons, List.mapM_cons, habitFromJson_habitToJson h (hl h (by simp)),
      ih fun x hx => hl x (by simp [hx])]
    rfl

theorem storeFromJson_storeToJson (s : HabitStore) (hs : s.ValidData) :
    storeFromJson (storeToJson s) = some s := by
  obtain ⟨habits⟩ := s
  have : storeFromJson (storeToJson ⟨habits⟩) =
      ((habits.map habitToJson).mapM habitFromJson).bind fun hs => some (⟨hs⟩ : HabitStore) :=
    rfl
  rw [this, mapM_habitFromJson habits hs]
  rfl

/-! ### Behavioural lemmas about `mark_complete` and resolution -/

theorem mark_complete_dup (h : Habit) (t : Ts)
    (hex : ∃ d ∈ h.completions, dateNaive d = dateNaive t) :
    h.mark_complete t = (false, h) := by
  unfold Habit.mark_complete
  rw [if_pos]
  simp only [List.any_eq_true, decide_eq_true_eq]
  exact hex

theorem mark_complete_fresh (h : Habit) (t : Ts)
    (hf : ∀ d ∈ h.completions, dateNaive d ≠ dateNaive t) :
    h.mark_complete t =
      (true, { h with completions := (h.completions ++ [t]).mergeSort tsLe }) := by
  unfold Habit.mark_complete
  rw [if_neg]
  simp only [List.any_eq_true, decide_eq_true_eq, not_exists]
  intro d
  by_cases hd : d ∈ h.completions
  · simp [hd, hf d hd]
  · simp [hd]

/-- The representation invariant of `completions`: sorted ascending and
no two entries on the same calendar date. -/
def CompletionsInv (l : List Ts) : Prop :=
  l.Pairwise (fun a b => tsLe a b = true) ∧
    l.Pairwise fun a b => dateNaive a ≠ dateNaive b

theorem mark_complete_preserves_inv (h : Habit) (t : Ts)
    (hinv : CompletionsInv h.completions) :
    CompletionsInv (h.mark_complete t).2.completions := by
  by_cases hex : ∃ d ∈ h.completions, dateNaive d = dateNaive t
  · rw [mark_complete_dup h t hex]
    exact hinv
  · push_neg at hex
    rw [mark_complete_fresh h t hex]
    refine ⟨List.sorted_mergeSort tsLe_trans tsLe_total _, ?_⟩
    have hperm : ((h.completions ++ [t]).mergeSort tsLe).Perm (h.completions ++ [t]) :=
      List.mergeSort_perm _ _
    have hiff := List.Perm.pairwise_iff
      (fun hab e => hab e.symm : ∀ {x y : Ts}, dateNaive x ≠ dateNaive y → dateNaive y ≠ dateNaive x)
      hperm
    show List.Pairwise (fun a b => dateNaive a ≠ dateNaive b) ((h.completions ++ [t]).mergeSort tsLe)
    rw [hiff, List.pairwise_append]
    refine ⟨hinv.2, by simp, ?_⟩
    intro a ha b hb
    simp only [List.mem_singleton] at hb
    subst hb
    exact hex a ha

theorem findFirstIdx_some_spec (p : Habit → Bool) (l : List Habit) (i : Nat)
    (h : findFirstIdx p l = some i) :
    i < l.length ∧ p (l.getD i dHabit) = true ∧ ∀ j < i, p (l.getD j dHabit) = false := by
  induction l generalizing i with
  | nil => simp [findFirstIdx] at h
  | cons x xs ih =>
    by_cases hx : p x
    · rw [findFirstIdx, if_pos hx] at h
      cases h
      simpa using hx
    · rw [findFirstIdx, if_neg hx] at h
      rw [Option.map_eq_some'] at h
      obtain ⟨i', hi', rfl⟩ := h
      obtain ⟨hlen, hp, hlt⟩ := ih i' hi'
      refine ⟨by simpa using hlen, by simpa using hp, ?_⟩
      intro j hj
      cases j with
      | zero => simpa using Bool.of_not_eq_true hx
      | succ j => simpa using hlt j (by omega)

theorem findFirstIdx_none_spec (p : Habit → Bool) (l : List Habit) :
    findFirstIdx p l = none ↔ ∀ h ∈ l, p h = false := by
  induction l with
  | nil => simp [findFirstIdx]
  | cons x xs ih =>
    by_cases hx : p x
    · rw [findFirstIdx, if_pos hx]
      simp [hx]
    · rw [findFirstIdx, if_neg hx]
      simp only [Option.map_eq_none', ih, List.mem_cons]
      constructor
      · intro hall h hh
        cases hh with
        | inl he => subst he; exact Bool.of_not_eq_true hx
        | inr hm => exact hall h hm
      · intro hall h hm
        exact hall h (Or.inr hm)

/-! ### Claim C1 -/

/-- C1 (amended): for every habit and timestamp, `mark_complete`
returns false and leaves completions unchanged when some completion
shares the calendar date, and otherwise appends the timestamp, re-sorts
ascending and returns true; and — for a habit with no prior completion
on that calendar date — two calls with different timestamps on the same
calendar date mutate the habit exactly once, the second returning
false. -/
theorem c1_mark_complete_contract (h : Habit) (t1 t2 : Ts)
    (hsame : dateNaive t1 = dateNaive t2) (_hdiff : t1 ≠ t2)
    (hfresh : ∀ d ∈ h.completions, dateNaive d ≠ dateNaive t1) :
    (∀ t, ((∃ d ∈ h.completions, dateNaive d = dateNaive t) →
        h.mark_complete t = (false, h)) ∧
      ((∀ d ∈ h.completions, dateNaive d ≠ dateNaive t) →
        h.mark_complete t =
          (true, { h with completions := (h.completions ++ [t]).mergeSort tsLe }) ∧
        (h.mark_complete t).2.completions.Perm (h.completions ++ [t]) ∧
        (h.mark_complete t).2.completions.Pairwise fun a b => tsLe a b = true)) ∧
    ((h.mark_complete t1).2 ≠ h ∧
      ((h.mark_complete t1).2.mark_complete t2).1 = false ∧
      ((h.mark_complete t1).2.mark_complete t2).2 = (h.mark_complete t1).2) := by
  constructor
  · intro t
    refine ⟨fun hex => mark_complete_dup h t hex, fun hfr => ?_⟩
    have he := mark_complete_fresh h t hfr
    refine ⟨he, ?_, ?_⟩
    · simp only [he]
      exact List.mergeSort_perm _ _
    · simp only [he]
      exact List.sorted_mergeSort tsLe_trans tsLe_total _
  · have he1 := mark_complete_fresh h t1 hfresh
    constructor
    · intro heq
      have hlen : ((h.completions ++ [t1]).mergeSort tsLe).length =
          h.completions.length + 1 := by
        rw [(List.mergeSort_perm _ _).length_eq]
        simp
      simp only [he1] at heq
      have hc : ((h.completions ++ [t1]).mergeSort tsLe) = h.completions :=
        congrArg Habit.completions heq
      rw [hc] at hlen
      omega
    · have hdup : ∃ d ∈ (h.mark_complete t1).2.completions, dateNaive d = dateNaive t2 := by
        refine ⟨t1, ?_, hsame⟩
        simp only [he1]
        exact (List.mergeSort_perm _ _).mem_iff.mpr (by simp)
      have hd := mark_complete_dup (h.mark_complete t1).2 t2 hdup
      exact ⟨by rw [hd], by rw [hd]⟩

/-- C1 counterexample: on a habit that already has a completion on the
calendar date, two further same-date calls mutate the state zero times
(not exactly once), though the second call does return false. -/
theorem c1_counterexample :
    dateNaive ⟨2024, 1, 1, 1, 0, 0⟩ = dateNaive ⟨2024, 1, 1, 2, 0, 0⟩ ∧
    (⟨2024, 1, 1, 1, 0, 0⟩ : Ts) ≠ ⟨2024, 1, 1, 2, 0, 0⟩ ∧
    (({ dHabit with completions := [⟨2024, 1, 1, 0, 0, 0⟩] }).mark_complete
        ⟨2024, 1, 1, 1, 0, 0⟩).2 = { dHabit with completions := [⟨2024, 1, 1, 0, 0, 0⟩] } ∧
    ¬ ((({ dHabit with completions := [⟨2024, 1, 1, 0, 0, 0⟩] }).mark_complete
          ⟨2024, 1, 1, 1, 0, 0⟩).2 ≠ { dHabit with completions := [⟨2024, 1, 1, 0, 0, 0⟩] } ∧
        ((({ dHabit with completions := [⟨2024, 1, 1, 0, 0, 0⟩] }).mark_complete
            ⟨2024, 1, 1, 1, 0, 0⟩).2.mark_complete ⟨2024, 1, 1, 2, 0, 0⟩).2 =
          (({ dHabit with completions := [⟨2024, 1, 1, 0, 0, 0⟩] }).mark_complete
            ⟨2024, 1, 1, 1, 0, 0⟩).2) := by
  decide

theorem c1_mark_complete_contract_witness :
    ((dHabit.mark_complete ⟨2024, 1, 1, 1, 0, 0⟩).2 ≠ dHabit ∧
      ((dHabit.mark_complete ⟨2024, 1, 1, 1, 0, 0⟩).2.mark_complete ⟨2024, 1, 1, 2, 0, 0⟩).1 =
        false) :=
  have m := c1_mark_complete_contract dHabit ⟨2024, 1, 1, 1, 0, 0⟩ ⟨2024, 1, 1, 2, 0, 0⟩
    rfl (by decide) (by simp [dHabit])
  ⟨m.2.1, m.2.2.1⟩

/-! ### Claim C8 -/

/-- A whole sequence of `mark_complete` calls, in call order. -/
def markAll (h : Habit) (ts : List Ts) : Habit :=
  ts.foldl (fun h t => (h.mark_complete t).2) h

theorem markAll_inv (ts : List Ts) : ∀ h : Habit, CompletionsInv h.completions →
    CompletionsInv (markAll h ts).completions := by
  induction ts with
  | nil => intro h hinv; exact hinv
  | cons t ts ih =>
    intro h hinv
    exact ih _ (mark_complete_preserves_inv h t hinv)

/-- C8: starting from a sorted, date-deduplicated completions list,
after every call of an arbitrary `mark_complete` sequence (every prefix
of the call list) the completions remain sorted ascending with no two
entries on the same calendar date. -/
theorem c8_completions_always_invariant (h : Habit) (ts : List Ts)
    (hinv : ((h.completions.Pairwise fun a b => tsLe a b = true) ∧
      h.completions.Pairwise fun a b => dateNaive a ≠ dateNaive b)) :
    ∀ k : Nat, ((markAll h (ts.take k)).completions.Pairwise fun a b => tsLe a b = true) ∧
      (markAll h (ts.take k)).completions.Pairwise fun a b => dateNaive a ≠ dateNaive b := by
  intro k
  exact markAll_inv (ts.take k) h hinv

theorem c8_completions_always_invariant_witness :
    ((markAll { dHabit with completions := [⟨2024, 1, 2, 0, 0, 0⟩] }
        ([⟨2024, 1, 1, 5, 0, 0⟩, ⟨2024, 1, 1, 6, 0, 0⟩, ⟨2024, 1, 3, 0, 0, 0⟩].take 3)).completions.Pairwise
      fun a b => tsLe a b = true) ∧
    (markAll { dHabit with completions := [⟨2024, 1, 2, 0, 0, 0⟩] }
        ([⟨2024, 1, 1, 5, 0, 0⟩, ⟨2024, 1, 1, 6, 0, 0⟩, ⟨2024, 1, 3, 0, 0, 0⟩].take 3)).completions.Pairwise
      fun a b => dateNaive a ≠ dateNaive b :=
  c8_completions_always_invariant { dHabit with completions := [⟨2024, 1, 2, 0, 0, 0⟩] }
    [⟨2024, 1, 1, 5, 0, 0⟩, ⟨2024, 1, 1, 6, 0, 0⟩, ⟨2024, 1, 3, 0, 0, 0⟩]
    (by constructor <;> decide) 3

/-! ### Claim C4 -/

/-- C4: when the identifier parses as a uuid, resolution is by exact id
only — the first id match in insertion order, names never consulted —
otherwise it is the first case-insensitive exact name match in
insertion order; and when resolution finds nothing, the command layer
reports `NotFound` carrying the identifier (shown on Complete, the
command the claim's source lines implement resolution for). -/
theorem c4_resolution (store : HabitStore) (ident : String) :
    (∀ u, parseUuid ident = some u →
      ((∃ i, findByIdentIdx store ident = some i ∧ i < store.habits.length ∧
          (store.habits.getD i dHabit).id = u ∧
          ∀ j < i, (store.habits.getD j dHabit).id ≠ u) ∨
        (findByIdentIdx store ident = none ∧ ∀ h ∈ store.habits, h.id ≠ u))) ∧
    (parseUuid ident = none →
      ((∃ i, findByIdentIdx store ident = some i ∧ i < store.habits.length ∧
          eqIgnoreAsciiCase (store.habits.getD i dHabit).name ident = true ∧
          ∀ j < i, eqIgnoreAsciiCase (store.habits.getD j dHabit).name ident = false) ∨
        (findByIdentIdx store ident = none ∧
          ∀ h ∈ store.habits, eqIgnoreAsciiCase h.name ident = false))) ∧
    (∀ now newId file, HabitStore.load file = Except.ok store →
      findByIdentIdx store ident = none →
      runCmd now newId (Cmd.complete ident) file =
        (Except.error (HabitError.NotFound ident), file)) := by
  refine ⟨?_, ?_, ?_⟩
  · intro u hu
    cases hfind : findFirstIdx (fun h => h.id == u) store.habits with
    | some i =>
      left
      obtain ⟨hlen, hp, hlt⟩ := findFirstIdx_some_spec _ _ _ hfind
      refine ⟨i, ?_, hlen, by simpa using hp, ?_⟩
      · simp only [findByIdentIdx, hu, hfind]
      · intro j hj
        simpa using hlt j hj
    | none =>
      right
      constructor
      · simp only [findByIdentIdx, hu, hfind]
      · intro h hm
        simpa using (findFirstIdx_none_spec _ _).mp hfind h hm
  · intro hu
    cases hfind : findFirstIdx (fun h => eqIgnoreAsciiCase h.name ident) store.habits with
    | some i =>
      left
      obtain ⟨hlen, hp, hlt⟩ := findFirstIdx_some_spec _ _ _ hfind
      refine ⟨i, ?_, hlen, hp, fun j hj => hlt j hj⟩
      simp only [findByIdentIdx, hu, hfind]
    | none =>
      right
      refine ⟨?_, fun h hm => (findFirstIdx_none_spec _ _).mp hfind h hm⟩
      simp only [findByIdentIdx, hu, hfind]
  · intro now newId file hload hnone
    simp only [runCmd, hload, hnone]

theorem c4_resolution_witness :
    runCmd ⟨2024, 1, 1, 0, 0, 0⟩ 0 (Cmd.complete "nope") FileRead.absent =
      (Except.error (HabitError.NotFound "nope"), FileRead.absent) :=
  (c4_resolution ⟨[]⟩ "nope").2.2 ⟨2024, 1, 1, 0, 0, 0⟩ 0 FileRead.absent rfl (by rfl)

/-! ### Claim C9 -/

/-- The remove (and resolve) matching rule: id-exact when the
identifier parses as a uuid, case-insensitive name-exact otherwise. -/
def identMatches (ident : String) (h : Habit) : Bool :=
  match parseUuid ident with
  | some u => h.id == u
  | none => eqIgnoreAsciiCase h.name ident

/-- C9: remove deletes exactly the records matching the identifier
under the resolution rule (all duplicates included), fails with
`NotFound` precisely when the collection size is unchanged, and the
survivors are the order-preserving filtration of the original list. -/
theorem c9_remove_contract (store : HabitStore) (ident : String) (file : FileRead)
    (now : Ts) (newId : Nat) (hload : HabitStore.load file = Except.ok store) :
    (runCmd now newId (Cmd.remove ident) file =
      if (store.habits.filter fun h => !(identMatches ident h)).length = store.habits.length
      then (Except.error (HabitError.NotFound ident), file)
      else (Except.ok (),
        (HabitStore.mk (store.habits.filter fun h => !(identMatches ident h))).save)) ∧
    ((store.habits.filter fun h => !(identMatches ident h)).Sublist store.habits) ∧
    (∀ h ∈ store.habits.filter fun h => !(identMatches ident h),
      identMatches ident h = false) ∧
    ((store.habits.filter fun h => !(identMatches ident h)).length = store.habits.length ↔
      ∀ h ∈ store.habits, identMatches ident h = false) := by
  refine ⟨?_, List.filter_sublist _, ?_, ?_⟩
  · have hclo : (fun h : Habit =>
        match parseUuid ident with
        | some u => !(h.id == u)
        | none => !(eqIgnoreAsciiCase h.name ident)) =
        fun h => !(identMatches ident h) := by
      funext h
      unfold identMatches
      cases parseUuid ident <;> rfl
    simp only [runCmd, hload, hclo]
    by_cases hlen : (store.habits.filter fun h => !(identMatches ident h)).length =
        store.habits.length
    · rw [if_pos hlen, if_pos (by simpa using hlen)]
    · rw [if_neg hlen, if_neg (by simpa using hlen)]
  · intro h hm
    have := (List.mem_filter.mp hm).2
    simpa using this
  · constructor
    · intro hlen h hm
      have heq : (store.habits.filter fun h => !(identMatches ident h)) = store.habits :=
        (List.filter_sublist _).eq_of_length hlen
      have hmem : h ∈ store.habits.filter fun h => !(identMatches ident h) := by
        rw [heq]; exact hm
      simpa using (List.mem_filter.mp hmem).2
    · intro hall
      rw [List.filter_eq_self.mpr]
      intro a ha
      simp [hall a ha]

theorem c9_remove_contract_witness :
    runCmd ⟨2024, 1, 1, 0, 0, 0⟩ 0 (Cmd.remove "x") FileRead.absent =
      (if (([] : List Habit).filter fun h => !(identMatches "x" h)).length =
          ([] : List Habit).length
      then (Except.error (HabitError.NotFound "x"), FileRead.absent)
      else (Except.ok (), (HabitStore.mk (([] : List Habit).filter
        fun h => !(identMatches "x" h))).save)) :=
  (c9_remove_contract ⟨[]⟩ "x" FileRead.absent ⟨2024, 1, 1, 0, 0, 0⟩ 0 rfl).1

/-! ### Claim C10 -/

theorem editFields_null_sentinel (h : Habit) (fs : String)
    (hs : eqIgnoreAsciiCase fs "null" = true) :
    editFields h none none (some fs) none = Except.ok { h with target_frequency := none } := by
  unfold editFields
  dsimp only
  rw [hs]
  rfl

theorem editFields_bad_frequency (h : Habit) (fs : String)
    (hs : eqIgnoreAsciiCase fs "null" = false) (hp : parseU32 fs = none) :
    editFields h none none (some fs) none =
      Except.error (HabitError.InvalidName "frequency") := by
  unfold editFields
  dsimp only
  rw [hs, hp]
  rfl

theorem editFields_good_frequency (h : Habit) (fs : String) (v : Nat)
    (hs : eqIgnoreAsciiCase fs "null" = false) (hp : parseU32 fs = some v) :
    editFields h none none (some fs) none =
      Except.ok { h with target_frequency := some v } := by
  unfold editFields
  dsimp only
  rw [hs, hp]
  rfl

/-- C10: for a store with a habit resolvable by the identifier, an edit
whose frequency argument is the string `null` in any ASCII casing
succeeds and clears `target_frequency`; the invalid-frequency error is
raised exactly when the string is neither that sentinel nor a parsable
`u32`. -/
theorem c10_edit_null_frequency (store : HabitStore) (ident : String) (file : FileRead)
    (now : Ts) (newId : Nat) (i : Nat)
    (hload : HabitStore.load file = Except.ok store)
    (hfind : findByIdentIdx store ident = some i) :
    (∀ fs : String, eqIgnoreAsciiCase fs "null" = true →
      runCmd now newId (Cmd.edit ident none none (some fs) none) file =
        (Except.ok (), (HabitStore.mk (store.habits.set i
          { store.habits.getD i dHabit with target_frequency := none })).save)) ∧
    (∀ fs : String,
      (runCmd now newId (Cmd.edit ident none none (some fs) none) file).1 =
          Except.error (HabitError.InvalidName "frequency") ↔
        (eqIgnoreAsciiCase fs "null" = false ∧ parseU32 fs = none)) := by
  constructor
  · intro fs hs
    simp only [runCmd, hload, hfind, editFields_null_sentinel _ fs hs]
  · intro fs
    cases hs : eqIgnoreAsciiCase fs "null" with
    | true =>
      simp only [runCmd, hload, hfind, editFields_null_sentinel _ fs hs]
      simp
    | false =>
      cases hp : parseU32 fs with
      | none =>
        simp only [runCmd, hload, hfind, editFields_bad_frequency _ fs hs hp]
        simp
      | some v =>
        simp only [runCmd, hload, hfind, editFields_good_frequency _ fs v hs hp]
        simp

def c10Habit : Habit :=
  { dHabit with
    id := 3, name := "Run", created_at := ⟨2024, 1, 1, 0, 0, 0⟩,
    target_frequency := some 7 }

theorem c10_edit_null_frequency_witness :
    runCmd ⟨2024, 1, 2, 0, 0, 0⟩ 0 (Cmd.edit "run" none none (some "NULL") none)
        (HabitStore.save ⟨[c10Habit]⟩) =
      (Except.ok (), (HabitStore.mk ([c10Habit].set 0
        { [c10Habit].getD 0 dHabit with target_frequency := none })).save) :=
  (c10_edit_null_frequency ⟨[c10Habit]⟩ "run" _ ⟨2024, 1, 2, 0, 0, 0⟩ 0 0 (by rfl)
    (by rfl)).1 "NULL" (by rfl)

/-! ### Claim C6 -/

/-- The error kinds produced by in-memory validation or resolution, as
opposed to the io / corrupt-file kinds. -/
def IsValidationError : HabitError → Prop
  | .NotFound _ => True
  | .InvalidName _ => True
  | .AlreadyCompleted _ => True
  | .Io => False
  | .Serde => False

/-- C6: a command invocation that ends in a validation or resolution
error (`NotFound`, `InvalidName` — including an unparsable frequency —
or `AlreadyCompleted`) never reaches `save`: the backing file after the
invocation is exactly the file before it.  In particular an edit whose
frequency fails to parse persists nothing even though the name was
already updated in memory. -/
theorem c6_no_save_on_validation_error (now : Ts) (newId : Nat) (cmd : Cmd) (file : FileRead)
    (e : HabitError) (herr : (runCmd now newId cmd file).1 = Except.error e)
    (_hkind : IsValidationError e) :
    (runCmd now newId cmd file).2 = file := by
  cases cmd with
  | add name description frequency =>
    cases hn : isTrimEmpty name with
    | true => simp only [runCmd, hn]; rfl
    | false =>
      cases hl : HabitStore.load file with
      | error e2 => simp only [runCmd, hn, hl]; rfl
      | ok store =>
        simp only [runCmd, hn, hl] at herr
        exact absurd herr (by simp)
  | list active =>
    cases hl : HabitStore.load file with
    | error e2 => simp only [runCmd, hl]
    | ok store =>
      simp only [runCmd, hl] at herr
      exact absurd herr (by simp)
  | complete ident =>
    cases hl : HabitStore.load file with
    | error e2 => simp only [runCmd, hl]
    | ok store =>
      cases hf : findByIdentIdx store ident with
      | none => simp only [runCmd, hl, hf]
      | some i =>
        cases hm : (store.habits.getD i dHabit).mark_complete now with
        | mk ok h2 =>
          cases ok with
          | false => simp only [runCmd, hl, hf, hm]
          | true =>
            simp only [runCmd, hl, hf, hm] at herr
            exact absurd herr (by simp)
  | remove ident =>
    cases hl : HabitStore.load file with
    | error e2 => simp only [runCmd, hl]
    | ok store =>
      cases hk : ((store.habits.filter fun h =>
          match parseUuid ident with
          | some u => !(h.id == u)
          | none => !(eqIgnoreAsciiCase h.name ident)).length == store.habits.length) with
      | true => simp only [runCmd, hl, hk]; rfl
      | false =>
        simp only [runCmd, hl, hk] at herr
        exact absurd herr (by simp)
  | edit ident name description frequency active =>
    cases hl : HabitStore.load file with
    | error e2 => simp only [runCmd, hl]
    | ok store =>
      cases hf : findByIdentIdx store ident with
      | none => simp only [runCmd, hl, hf]
      | some i =>
        cases he : editFields (store.habits.getD i dHabit) name description frequency active with
        | error e2 => simp only [runCmd, hl, hf, he]
        | ok h2 =>
          simp only [runCmd, hl, hf, he] at herr
          exact absurd herr (by simp)

theorem c6_no_save_on_validation_error_witness :
    (runCmd ⟨2024, 1, 2, 0, 0, 0⟩ 0
        (Cmd.edit "run" (some "NewName") none (some "abc") none)
        (HabitStore.save ⟨[{ dHabit with
          id := 3, name := "Run", created_at := ⟨2024, 1, 1, 0, 0, 0⟩ }]⟩)).2 =
      HabitStore.save ⟨[{ dHabit with
        id := 3, name := "Run", created_at := ⟨2024, 1, 1, 0, 0, 0⟩ }]⟩ :=
  c6_no_save_on_validation_error ⟨2024, 1, 2, 0, 0, 0⟩ 0
    (Cmd.edit "run" (some "NewName") none (some "abc") none)
    (HabitStore.save ⟨[{ dHabit with
      id := 3, name := "Run", created_at := ⟨2024, 1, 1, 0, 0, 0⟩ }]⟩)
    (HabitError.InvalidName "frequency") (by rfl) trivial

/-! ### Claim C7 -/

/-- C7 counterexample: a read failure that is not "file does not
exist" — the stream failing after a successful open — surfaces as the
serde/corrupt condition, not as `Io`: `serde_json::from_reader` wraps
its reader's io errors in `serde_json::Error`, which `?` converts to
`HabitError::Serde`. -/
theorem c7_counterexample :
    HabitStore.load FileRead.readError = Except.error HabitError.Serde ∧
    HabitStore.load FileRead.readError ≠ Except.error HabitError.Io := by
  refine ⟨rfl, ?_⟩
  intro h
  simp [HabitStore.load] at h

/-- C7 (amended): `load` returns an empty store with no error when the
existence check reports the file absent (a failing stat is swallowed
into this case); it fails with `Io` exactly when opening the file
fails; a read failure after a successful open surfaces as the serde
(Corrupt) condition, exactly like content that does not parse into the
schema; and parsable content yields the parsed store. -/
theorem c7_load_error_routing :
    (HabitStore.load FileRead.absent = Except.ok ⟨[]⟩) ∧
    (HabitStore.load FileRead.openError = Except.error HabitError.Io) ∧
    (HabitStore.load FileRead.readError = Except.error HabitError.Serde) ∧
    (∀ j, storeFromJson j = none →
      HabitStore.load (FileRead.found j) = Except.error HabitError.Serde) ∧
    (∀ j s, storeFromJson j = some s → HabitStore.load (FileRead.found j) = Except.ok s) ∧
    (∀ f : FileRead, HabitStore.load f = Except.error HabitError.Io ↔ f = FileRead.openError) := by
  refine ⟨rfl, rfl, rfl, ?_, ?_, ?_⟩
  · intro j hj
    simp only [HabitStore.load, hj]
  · intro j s hj
    simp only [HabitStore.load, hj]
  · intro f
    cases f with
    | absent => simp [HabitStore.load]
    | openError => simp [HabitStore.load]
    | readError => simp [HabitStore.load]
    | found j =>
      cases hj : storeFromJson j with
      | none => simp [HabitStore.load, hj]
      | some s => simp [HabitStore.load, hj]

theorem c7_load_error_routing_witness :
    HabitStore.load (FileRead.found Json.null) = Except.error HabitError.Serde ∧
    (HabitStore.load FileRead.readError = Except.error HabitError.Io ↔
      FileRead.readError = FileRead.openError) :=
  ⟨c7_load_error_routing.2.2.2.1 Json.null rfl,
    c7_load_error_routing.2.2.2.2.2 FileRead.readError⟩

/-! ### Claim C3 -/

/-- C3: `load (save S) = S` for every (representable) store, field for
field: id, name, description including absence, `created_at` and every
completion timestamp down to the serialized time-zone string,
`target_frequency` including absence, and `is_active`. -/
theorem c3_save_load_round_trip (S : HabitStore) (hS : S.ValidData) :
    HabitStore.load S.save = Except.ok S := by
  simp only [HabitStore.save, HabitStore.load, storeFromJson_storeToJson S hS]

def c3Store : HabitStore :=
  ⟨[{ id := 77, name := "Meditate", description := some "daily calm",
      created_at := ⟨2024, 2, 29, 23, 59, 59⟩,
      completions := [⟨2024, 3, 1, 8, 0, 0⟩, ⟨2024, 3, 2, 8, 30, 0⟩],
      target_frequency := some 7, is_active := false },
    { id := 2 ^ 128 - 1, name := "Run", description := none,
      created_at := ⟨1999, 12, 31, 0, 0, 0⟩, completions := [],
      target_frequency := none, is_active := true }]⟩

theorem c3_save_load_round_trip_witness :
    HabitStore.load (HabitStore.save c3Store) = Except.ok c3Store :=
  c3_save_load_round_trip c3Store (by decide)

/-! ### Claim C5 -/

/-- C5 counterexample: a legacy-shaped record — every current field
present except `is_active` — fails to parse, both as a single record
and inside the whole backing document. -/
theorem c5_counterexample :
    habitFromJson (Json.obj [("id", Json.str "00000000-0000-0000-0000-000000000001"),
      ("name", Json.str "run"), ("description", Json.null),
      ("created_at", Json.str "2024-01-01T00:00:00Z"),
      ("completions", Json.arr []), ("target_frequency", Json.null)]) = none ∧
    storeFromJson (Json.obj [("habits", Json.arr
      [Json.obj [("id", Json.str "00000000-0000-0000-0000-000000000001"),
        ("name", Json.str "run"), ("description", Json.null),
        ("created_at", Json.str "2024-01-01T00:00:00Z"),
        ("completions", Json.arr []), ("target_frequency", Json.null)]])]) = none := by
  exact ⟨rfl, rfl⟩

theorem bind_eq_none_of_forall {α β : Type} (x : Option α) (f : α → Option β)
    (h : ∀ a, f a = none) : x.bind f = none := by
  cases x with
  | none => rfl
  | some a => exact h a

theorem fieldOnce_of_not_mem (fields : List (String × Json)) (k : String)
    (h : ∀ f ∈ fields, f.1 ≠ k) : fieldOnce fields k = some none := by
  unfold fieldOnce
  have hf : fields.filter (fun f => f.1 == k) = [] := by
    rw [List.filter_eq_nil_iff]
    intro f hfm
    simpa using h f hfm
  rw [hf]

/-- C5 (amended): the reader does not accept the legacy shape — a habit
object with no `is_active` field never parses (`is_active: bool` has no
serde default) — while the current shape, `is_active` present, parses
back to the exact record. -/
theorem c5_is_active_required (fields : List (String × Json))
    (hno : ∀ f ∈ fields, f.1 ≠ "is_active") :
    habitFromJson (Json.obj fields) = none ∧
    ∀ h : Habit, h.ValidData → habitFromJson (habitToJson h) = some h := by
  constructor
  · show (Option.bind _ _) = none
    apply bind_eq_none_of_forall
    intro a1
    apply bind_eq_none_of_forall
    intro a2
    apply bind_eq_none_of_forall
    intro a3
    apply bind_eq_none_of_forall
    intro a4
    apply bind_eq_none_of_forall
    intro a5
    apply bind_eq_none_of_forall
    intro a6
    apply bind_eq_none_of_forall
    intro a7
    apply bind_eq_none_of_forall
    intro a8
    apply bind_eq_none_of_forall
    intro a9
    apply bind_eq_none_of_forall
    intro a10
    apply bind_eq_none_of_forall
    intro a11
    apply bind_eq_none_of_forall
    intro a12
    rw [fieldOnce_of_not_mem fields "is_active" hno]
    rfl
  · exact habitFromJson_habitToJson

theorem c5_is_active_required_witness :
    habitFromJson (Json.obj [("id", Json.str "00000000-0000-0000-0000-000000000001"),
      ("name", Json.str "run"), ("description", Json.null),
      ("created_at", Json.str "2024-01-01T00:00:00Z"),
      ("completions", Json.arr []), ("target_frequency", Json.null)]) = none ∧
    ∀ h : Habit, h.ValidData → habitFromJson (habitToJson h) = some h :=
  c5_is_active_required [("id", Json.str "00000000-0000-0000-0000-000000000001"),
    ("name", Json.str "run"), ("description", Json.null),
    ("created_at", Json.str "2024-01-01T00:00:00Z"),
    ("completions", Json.arr []), ("target_frequency", Json.null)] (by decide)

/-! ### Claim C2 -/

/-- C2: every interruption of the save sequence strictly before the
rename — including a failed directory creation, temp-file creation,
write, or flush — leaves the backing path's content exactly as it was
(so the next `load` observes the original file or its absence); no
reachable intermediate state shows a half-written backing file, and
only the final rename switches the content to the new serialized
data. -/
theorem c2_save_atomic (env : Option String) (data : String) (fs : FileSys)
    (hne : withExtension (storagePath env) "json.tmp" ≠ storagePath env) :
    (∀ k, k ≤ 4 →
      runSaveSteps (withExtension (storagePath env) "json.tmp") (storagePath env) data fs
        (saveSteps.take k) (storagePath env) = fs (storagePath env)) ∧
    (∀ k, runSaveSteps (withExtension (storagePath env) "json.tmp") (storagePath env) data fs
        (saveSteps.take k) (storagePath env) = fs (storagePath env) ∨
      runSaveSteps (withExtension (storagePath env) "json.tmp") (storagePath env) data fs
        (saveSteps.take k) (storagePath env) = some data) ∧
    (runSaveSteps (withExtension (storagePath env) "json.tmp") (storagePath env) data fs
      saveSteps (storagePath env) = some data) := by
  have hne2 : ¬ (storagePath env = withExtension (storagePath env) "json.tmp") :=
    fun e => hne e.symm
  have hstep : ∀ k, k ≤ 4 →
      runSaveSteps (withExtension (storagePath env) "json.tmp") (storagePath env) data fs
        (saveSteps.take k) (storagePath env) = fs (storagePath env) := by
    intro k hk
    interval_cases k <;>
      simp [runSaveSteps, saveSteps, applySaveStep, hne2]
  have hfull : runSaveSteps (withExtension (storagePath env) "json.tmp") (storagePath env) data
      fs saveSteps (storagePath env) = some data := by
    simp [runSaveSteps, saveSteps, applySaveStep, hne2]
  refine ⟨hstep, ?_, hfull⟩
  intro k
  by_cases hk : k ≤ 4
  · exact Or.inl (hstep k hk)
  · right
    have : saveSteps.take k = saveSteps := by
      apply List.take_of_length_le
      simp [saveSteps]
      omega
    rw [this]
    exact hfull

theorem c2_save_atomic_witness :
    runSaveSteps (withExtension (storagePath none) "json.tmp") (storagePath none) "data"
      (fun _ => none) (saveSteps.take 3) (storagePath none) =
      (fun _ => (none : Option String)) (storagePath none) :=
  (c2_save_atomic none "data" (fun _ => none) (by decide)).1 3 (by omega)

end HabitTracker
